import Mathlib

/-!
Verification development for the sym-data weapon-statistics extractor.

The JavaScript sources are shallowly embedded:
* JS strings are modelled as `List Char`;
* JS numbers are modelled as `JsNumber` (an exact rational or the NaN
  sentinel; the double-precision representation is abstracted away, and
  the special value Infinity does not arise in the modelled code paths);
* JS values flowing through the extractor (string / number / undefined)
  are modelled as `JsVal`;
* JS objects used as records are modelled as insertion-ordered
  association lists with update-or-append assignment (`setKey`).

The DOM subtree of one weapon block is modelled by the `Node` inductive,
with `querySelectorAll`-style lookups by class name and by tag name.
-/

/-- A JS string, modelled as its list of characters. -/
abbrev JsString := List Char

/-- A JS number: either NaN or an exact rational value.  The modelled
code paths never produce Infinity (the only division is guarded by a
zero test on the divisor), and double rounding is abstracted away. -/
inductive JsNumber where
  | nan : JsNumber
  | val : ℚ → JsNumber
deriving DecidableEq, Repr

/-- A JS value as it flows through the extractor: `undefined`, a number,
or a string. -/
inductive JsVal where
  | undef : JsVal
  | num : JsNumber → JsVal
  | str : JsString → JsVal
deriving DecidableEq, Repr

/-- JS truthiness of an optional boolean (an absent option is falsy). -/
def truthy : Option Bool → Bool
  | some b => b
  | none => false

/-- Models `String.prototype.split` with a single-character separator:
`"".split(sep)` is `[""]`, separators at the ends produce empty pieces. -/
def jsSplit (sep : Char) : JsString → List JsString
  | [] => [[]]
  | c :: cs =>
    match jsSplit sep cs with
    | [] => [[]]
    | t :: ts => if c = sep then [] :: t :: ts else (c :: t) :: ts

/-- The space-collapsing step of `prune` (src/utils.js lines 17-25):
split on single spaces, return the first nonempty piece, and fall back
to the original string when every piece is empty. -/
def firstNonemptyToken (s : JsString) : JsString :=
  match (jsSplit ' ' s).find? (fun t => t.length ≠ 0) with
  | some t => t
  | none => s

/-- JS whitespace characters relevant to `Number(string)` trimming. -/
def isJsSpaceChar (c : Char) : Bool :=
  c = ' ' || c = '\t' || c = '\n' || c = '\r' || c = '\x0b' || c = '\x0c'

/-- Trim JS whitespace from both ends of a string. -/
def trimJs (s : JsString) : JsString :=
  ((s.dropWhile isJsSpaceChar).reverse.dropWhile isJsSpaceChar).reverse

/-- Numeric value of a decimal digit character. -/
def digitVal (c : Char) : Nat := c.toNat - '0'.toNat

/-- Value of a list of decimal digit characters, most significant first. -/
def digitsToNat (l : JsString) : Nat := l.foldl (fun n c => 10 * n + digitVal c) 0

/-- Parse an unsigned decimal literal (digits with an optional single
decimal point; at least one digit overall), as `Number()` accepts.  The
value of `i.f` is the integer read off the digits divided by the power
of ten given by the length of the fractional part. -/
def parseUnsignedDec (l : JsString) : Option ℚ :=
  match jsSplit '.' l with
  | [intp] =>
    if !intp.isEmpty && intp.all Char.isDigit then some (digitsToNat intp) else none
  | [intp, fracp] =>
    if (!intp.isEmpty || !fracp.isEmpty) && intp.all Char.isDigit && fracp.all Char.isDigit then
      some (Rat.divInt (digitsToNat intp * 10 ^ fracp.length + digitsToNat fracp)
        (10 ^ fracp.length))
    else none
  | _ => none

/-- Models the JS `Number(string)` conversion on the string shapes this
program meets: trimmed-empty strings convert to 0, optionally signed
decimal literals convert to their value, and everything else converts to
NaN.  (Hexadecimal, binary and exponent literal forms, which never occur
in the modelled pipeline, are not represented.) -/
def jsNumberOfString (s : JsString) : JsNumber :=
  let t := trimJs s
  if t.isEmpty then .val 0
  else
    match t with
    | '-' :: u =>
      match parseUnsignedDec u with
      | some q => .val (-q)
      | none => .nan
    | '+' :: u =>
      match parseUnsignedDec u with
      | some q => .val q
      | none => .nan
    | u =>
      match parseUnsignedDec u with
      | some q => .val q
      | none => .nan

/-- Models the JS `Number(value)` coercion on the values the extractor
produces: `undefined` coerces to NaN, numbers are unchanged, strings go
through `Number(string)`. -/
def jsToNumber : JsVal → JsNumber
  | .undef => .nan
  | .num n => n
  | .str s => jsNumberOfString s

/-- Exact rational division written with the kernel-computable
`Rat.divInt` (Mathlib marks the field operations on `ℚ` irreducible, so
the extractor's arithmetic is expressed through `divInt` and related to
`/` by `ratDiv_eq`). -/
def ratDiv (a b : ℚ) : ℚ := Rat.divInt (a.num * (b.den : ℤ)) ((a.den : ℤ) * b.num)

/-- Absolute value of a rational, via the numerator's absolute value. -/
def ratAbs (q : ℚ) : ℚ := Rat.divInt (q.num.natAbs : ℤ) (q.den : ℤ)

/-- Models `Math.abs` (NaN propagates). -/
def jsMathAbs : JsNumber → JsNumber
  | .nan => .nan
  | .val q => .val (ratAbs q)

/-- Models the strict comparison `x === 0` on a number. -/
def jsEqZero : JsNumber → Bool
  | .nan => false
  | .val q => q = 0

/-- Models JS division `a / b`.  The single call site in the source
guards `b === 0`, so the zero-divisor branch (JS would give ±Infinity
or NaN) is never reached; the model maps it to NaN. -/
def jsDiv : JsNumber → JsNumber → JsNumber
  | .nan, _ => .nan
  | _, .nan => .nan
  | .val a, .val b => if b = 0 then .nan else .val (ratDiv a b)

/-- Rounding to the nearest integer with ties away from zero: the
rounding convention of `Number.prototype.toFixed(0)`, which rounds the
absolute value half-up and then restores the sign.  For `q = n / d` in
lowest terms with `d > 0`, the rounded absolute value is
`⌊(2|n| + d) / (2d)⌋ = ⌊|q| + 1/2⌋`, computed here by natural-number
division. -/
def roundHalfAway (q : ℚ) : ℤ :=
  let m : Nat := (2 * q.num.natAbs + q.den) / (2 * q.den)
  if q.num < 0 then -(m : ℤ) else (m : ℤ)

/-- Models the composite `Number(x.toFixed(0))`: NaN stays NaN (via the
string "NaN"), and a finite value is rounded to the nearest integer,
ties away from zero. -/
def jsToFixed0 : JsNumber → JsNumber
  | .nan => .nan
  | .val q => .val ((roundHalfAway q : ℤ) : ℚ)

/-- The `prune` normalizer of src/utils.js (lines 14-32).  A missing
input propagates `undefined`; otherwise the string is optionally
collapsed to its first nonempty space-delimited token, every degree sign
is removed, and unless `asNumber` is exactly `false` the result is
coerced with `Number`. -/
def prune (s? : Option JsString) (keepSpaces asNumber : Option Bool) : JsVal :=
  match s? with
  | none => .undef
  | some s0 =>
    let s1 := if truthy keepSpaces then s0 else firstNonemptyToken s0
    let s2 := s1.filter (fun c => c ≠ '°')
    if asNumber = some false then .str s2 else .num (jsNumberOfString s2)

example : prune (some " ".toList) (some false) none = .num (.val 0) := by decide
example : prune (some "a b".toList) (some false) none = .num .nan := by decide
example : prune (some "12 pellets".toList) none none = .num (.val 12) := by decide
example : prune (some "2.5".toList) none none = .num (.val (Rat.divInt 5 2)) := by decide
example : prune (some "Test Gun".toList) (some true) (some false) = .str "Test Gun".toList := by
  decide
example : jsToFixed0 (jsDiv (.val 8) (.val 2)) = .val 4 := by decide
example : jsToFixed0 (.val (Rat.divInt 5 2)) = .val 3 := by decide
example : jsToFixed0 (.val (Rat.divInt (-5) 2)) = .val (-3) := by decide
example : jsToFixed0 (.val (Rat.divInt 7 5)) = .val 1 := by decide
example : jsMathAbs (.val (Rat.divInt (-3) 2)) = .val (Rat.divInt 3 2) := by decide

/-- `ratDiv` agrees with rational division. -/
theorem ratDiv_eq (a b : ℚ) : ratDiv a b = a / b := by
  rw [ratDiv, Rat.divInt_eq_div]
  push_cast
  rcases eq_or_ne b 0 with hb | hb
  · subst hb
    simp
  · have had : ((a.den : ℚ)) ≠ 0 := Nat.cast_ne_zero.mpr (Rat.den_pos a).ne'
    have hbd : ((b.den : ℚ)) ≠ 0 := Nat.cast_ne_zero.mpr (Rat.den_pos b).ne'
    have hbn : ((b.num : ℚ)) ≠ 0 := by
      exact_mod_cast Rat.num_ne_zero.mpr hb
    have han : (a.num : ℚ) = a * a.den := (div_eq_iff had).mp (Rat.num_div_den a)
    have hbn' : (b.num : ℚ) = b * b.den := (div_eq_iff hbd).mp (Rat.num_div_den b)
    rw [div_eq_div_iff (mul_ne_zero had hbn) hb, han, hbn']
    ring

/-!
DOM model.  A node is an element (with a tag name, a list of CSS
classes, and an ordered list of child nodes) or a text node.  The two
selector shapes the source uses are "by class name" (`"." + className`)
and "by tag name" (`"tr"`).
-/

/-- A DOM node of the parsed stats page. -/
inductive Node where
  | elem (tag : JsString) (classes : List JsString) (kids : List Node) : Node
  | text (s : JsString) : Node

mutual

/-- `textContent`: concatenation of all descendant text, in tree order. -/
def textContent : Node → JsString
  | .text s => s
  | .elem _ _ kids => textContentList kids

/-- `textContent` of a forest of nodes, concatenated in order. -/
def textContentList : List Node → JsString
  | [] => []
  | n :: ns => textContent n ++ textContentList ns

end

mutual

/-- All elements matching the predicate inside node `n` (including `n`
itself), in document (preorder) order. -/
def qsaNode (p : JsString → List JsString → Bool) : Node → List Node
  | .text _ => []
  | .elem tag cls kids =>
    (if p tag cls then [Node.elem tag cls kids] else []) ++ qsaList p kids

/-- All elements matching the predicate inside a forest, in document
order. -/
def qsaList (p : JsString → List JsString → Bool) : List Node → List Node
  | [] => []
  | n :: ns => qsaNode p n ++ qsaList p ns

end

/-- `querySelectorAll` on a node: matching descendant elements, the node
itself excluded, in document order. -/
def querySelectorAllP (n : Node) (p : JsString → List JsString → Bool) : List Node :=
  match n with
  | .text _ => []
  | .elem _ _ kids => qsaList p kids

/-- Class-selector predicate (`querySelectorAll("." + className)`). -/
def classSel (c : JsString) : JsString → List JsString → Bool :=
  fun _ cls => decide (c ∈ cls)

/-- Tag-selector predicate (`querySelectorAll("tr")`). -/
def tagSel (t : JsString) : JsString → List JsString → Bool :=
  fun tag _ => decide (tag = t)

/-- The `getAll` helper of the source: all descendants with a class. -/
def getAll (w : Node) (className : JsString) : List Node :=
  querySelectorAllP w (classSel className)

/-- `querySelector("." + className)`: the first matching descendant. -/
def querySelector (w : Node) (className : JsString) : Option Node :=
  (getAll w className).head?

/-- The `getFirst` helper of the source: `getAll(className)[0]`. -/
def getFirst (w : Node) (className : JsString) : Option Node :=
  (getAll w className).head?

/-- Element children of a node (`.children` skips text nodes). -/
def childrenOf : Node → List Node
  | .text _ => []
  | .elem _ _ kids => kids.filter fun n => match n with | .elem _ _ _ => true | .text _ => false

/-- Finds the first element matching the predicate in a forest
(preorder) and returns its `nextSibling` (the node, of any kind, that
follows it in its own sibling list), `some none` when the match is the
last sibling, `none` when there is no match at all. -/
def findWithSibling (p : JsString → List JsString → Bool) : List Node → Option (Option Node)
  | [] => none
  | Node.text _ :: ns => findWithSibling p ns
  | Node.elem tag cls kids :: ns =>
    if p tag cls then some ns.head?
    else
      match findWithSibling p kids with
      | some r => some r
      | none => findWithSibling p ns

/-- `querySelector("." + className)?.nextSibling` scoped to a weapon
subtree. -/
def nextSiblingOfFirst (w : Node) (className : JsString) : Option Node :=
  match w with
  | .text _ => none
  | .elem _ _ kids =>
    match findWithSibling (classSel className) kids with
    | some sib? => sib?
    | none => none

/-!
JS record objects.  A `Record` is an insertion-ordered association list;
`setKey` models JS property assignment (update in place, else append),
`getKey` models property access (`undefined` when the key is absent).
-/

/-- One weapon's in-progress attribute record. -/
abbrev Record := List (JsString × JsVal)

/-- JS property assignment `obj[k] = v`: overwrite in place when the key
exists, append otherwise. -/
def setKey {α : Type} : List (JsString × α) → JsString → α → List (JsString × α)
  | [], k, v => [(k, v)]
  | p :: r, k, v => if p.1 = k then (k, v) :: r else p :: setKey r k v

/-- Whether a record contains a key (`Object.hasOwn` / the `in`
operator). -/
def hasKey {α : Type} (r : List (JsString × α)) (k : JsString) : Bool :=
  r.any fun p => p.1 = k

/-- JS property access with an explicit default for a missing key. -/
def getKeyD {α : Type} : List (JsString × α) → JsString → α → α
  | [], _, d => d
  | p :: r, k, d => if p.1 = k then p.2 else getKeyD r k d

/-- JS property access `obj[k]` on a weapon record (`undefined` when the
key is absent). -/
def getKey (r : Record) (k : JsString) : JsVal :=
  getKeyD r k .undef

example : textContent (.elem "b".toList [] [.text "12 ".toList,
    .elem "i".toList [] [.text "pellets".toList]]) = "12 pellets".toList := by decide

/-!
The field-extraction engine of src/unnamed/part_000 (the current
pipeline, importing `prune` from src/utils.js).  Each rule is a triple
of output field name, locator class name, and an optional custom
behavior; the custom closures of the source are represented by the
`CustomB` tags, interpreted by `applyRule`.
-/

/-- Models `String.prototype.includes`: `pat` occurs as a contiguous
substring of `hay`. -/
def jsIncludes (hay pat : JsString) : Bool :=
  hay.tails.any fun t => pat.isPrefixOf t

/-- The `getValue` helper (part_000 lines 34-41): pruned text content of
the first descendant with the given class. -/
def getValue (w : Node) (className : JsString) (keepSpaces asNumber : Option Bool) : JsVal :=
  prune ((querySelector w className).map textContent) keepSpaces asNumber

/-- The `getValueOfSibling` helper (part_000 lines 52-60): pruned text
content of the next sibling of the first descendant with the given
class. -/
def getValueOfSibling (w : Node) (className : JsString)
    (keepSpaces asNumber : Option Bool) : JsVal :=
  prune ((nextSiblingOfFirst w className).map textContent) keepSpaces asNumber

/-- The column adjustment inside `getSpread` (part_000 line 104): with
the flag enabled, every row whose 1-indexed number is not congruent to 1
mod 3 has its column index decremented by one before the cell read. -/
def effectiveCol (dynamicCol : Bool) (row col : Nat) : Nat :=
  if dynamicCol ∧ row % 3 ≠ 1 then col - 1 else col

/-- The value read and pruned by `getSpread` (part_000 lines 106-111):
`getFirst(className)?.querySelectorAll("tr")[row]?.children[col]?.textContent`
with the adjusted column, pruned with default options. -/
def spreadCell (w : Node) (row col : Nat) (dynamicCol : Bool) (className : JsString) : JsVal :=
  prune
    ((((getFirst w className).bind
        fun t => (querySelectorAllP t (tagSel "tr".toList))[row]?).bind
      fun tr => (childrenOf tr)[effectiveCol dynamicCol row col]?).map textContent)
    none none

/-- The record update performed by one `getSpread(row, col, dynamicCol)`
rule (part_000 lines 102-113). -/
def getSpread (w : Node) (row col : Nat) (dynamicCol : Bool) (r : Record)
    (property className : JsString) : Record :=
  setKey r property (spreadCell w row col dynamicCol className)

/-- The record update performed by one `getFssm(row, col)` rule
(part_000 lines 122-132): run `getSpread(row, col)` (column flag at its
default `true`), then divide the freshly stored value by the record's
`adsStandSpreadInc` field — for both derived fields — storing zero when
the divisor is strictly zero and `Number(quotient.toFixed(0))`
otherwise. -/
def getFssm (w : Node) (row col : Nat) (r : Record) (property className : JsString) : Record :=
  let r1 := getSpread w row col true r property className
  let firstSips := jsToNumber (getKey r1 property)
  let sips := jsToNumber (getKey r1 "adsStandSpreadInc".toList)
  setKey r1 property (.num (if jsEqZero sips then sips else jsToFixed0 (jsDiv firstSips sips)))

/-- Tags for the custom extraction closures appearing as third entries
of the rule list (part_000 lines 140-199). -/
inductive CustomB where
  | pellets : CustomB
  | recoilLeft : CustomB
  | recoilRight : CustomB
  | recoilFirstShot : CustomB
  | spread (row col : Nat) (dynamicCol : Bool) : CustomB
  | fssm (row col : Nat) : CustomB
deriving DecidableEq, Repr

/-- One extraction rule: output field name, locator class name, optional
custom behavior. -/
abbrev Rule := JsString × JsString × Option CustomB

/-- Interprets one rule against one weapon subtree, transforming the
in-progress record exactly as the `forEach` dispatch of part_000 lines
200-213 does: a custom behavior fully replaces the default, and the
default omits the field when `getValue` yields `undefined`. -/
def applyRule (w : Node) (r : Record) : Rule → Record
  | (property, className, none) =>
    match getValue w className none none with
    | .undef => r
    | v => setKey r property v
  | (property, className, some .pellets) =>
    match (getAll w className).find? (fun l => jsIncludes (textContent l) "pellets".toList) with
    | some l => setKey r property (prune (some (textContent l)) none none)
    | none => r
  | (property, className, some .recoilLeft) =>
    setKey r property (.num (jsMathAbs (jsToNumber (getValue w className none none))))
  | (property, className, some .recoilRight) =>
    setKey r property (.num (jsMathAbs (jsToNumber (getValueOfSibling w className none none))))
  | (property, className, some .recoilFirstShot) =>
    setKey r property
      (prune (((getFirst w className).bind fun n => (childrenOf n)[1]?).map textContent)
        none none)
  | (property, className, some (.spread row col dynamicCol)) =>
    getSpread w row col dynamicCol r property className
  | (property, className, some (.fssm row col)) =>
    getFssm w row col r property className

/-- The ordered rule list of part_000 lines 140-199. -/
def ruleList : List Rule :=
  [ ("ammoCapacity".toList, "lblMag".toList, none),
    ("rateOfFire".toList, "lblRPMValue".toList, none),
    ("pellets".toList, "chartMinMaxLabel".toList, some .pellets),
    ("initialVelocity".toList, "lblSpeedValue".toList, none),
    ("dragCoefficient".toList, "lblDragCoe".toList, none),
    ("reloadTime".toList, "lblReloadLeft".toList, none),
    ("reloadTimeEmpty".toList, "lblReloadEmpty".toList, none),
    ("deployTime".toList, "lblDeployTime".toList, none),
    ("verticalRecoil".toList, "recoilInitUpValue".toList, none),
    ("recoilLeft".toList, "recoilHorValue".toList, some .recoilLeft),
    ("recoilRight".toList, "recoilHorValue".toList, some .recoilRight),
    ("recoilFirstShotMultiplier".toList, "recoilFirstShot".toList, some .recoilFirstShot),
    ("recoilDecrease".toList, "recoilDec".toList, none),
    ("dispersion".toList, "hipSpreadValue".toList, none),
    ("adsStandBaseMin".toList, "spreadTable".toList, some (.spread 1 1 true)),
    ("adsStandBaseMax".toList, "spreadTable".toList, some (.spread 1 2 true)),
    ("adsCrouchBaseMin".toList, "spreadTable".toList, some (.spread 2 1 true)),
    ("adsCrouchBaseMax".toList, "spreadTable".toList, some (.spread 2 2 true)),
    ("adsProneBaseMin".toList, "spreadTable".toList, some (.spread 3 1 true)),
    ("adsProneBaseMax".toList, "spreadTable".toList, some (.spread 3 2 true)),
    ("hipStandBaseMin".toList, "spreadTable".toList, some (.spread 4 1 true)),
    ("hipStandBaseMax".toList, "spreadTable".toList, some (.spread 4 2 true)),
    ("hipCrouchBaseMin".toList, "spreadTable".toList, some (.spread 5 1 true)),
    ("hipCrouchBaseMax".toList, "spreadTable".toList, some (.spread 5 2 true)),
    ("hipProneBaseMin".toList, "spreadTable".toList, some (.spread 6 1 true)),
    ("hipProneBaseMax".toList, "spreadTable".toList, some (.spread 6 2 true)),
    ("adsStandSpreadInc".toList, "spreadIncDecTable".toList, some (.spread 2 1 false)),
    ("hipStandSpreadInc".toList, "spreadIncDecTable".toList, some (.spread 2 2 false)),
    ("adsStandFirstSpreadMul".toList, "spreadIncDecTable".toList, some (.fssm 1 1)),
    ("hipStandFirstSpreadMul".toList, "spreadIncDecTable".toList, some (.fssm 1 2)),
    ("adsStandSpreadDec".toList, "spreadIncDecTable".toList, some (.spread 3 1 false)),
    ("hipStandSpreadDec".toList, "spreadIncDecTable".toList, some (.spread 3 2 false)) ]

/-- Processing of one weapon block: the ordered rule list applied, left
to right, to an initially empty record. -/
def processWeapon (w : Node) : Record :=
  ruleList.foldl (applyRule w) []

/-- The key under which a weapon's record lands in `symData` (part_000
lines 83-87): the pruned name with spaces kept and numeric coercion off.
`prune` with those options yields a string or `undefined`, and an
`undefined` JS property key is coerced to the string "undefined". -/
def weaponKey (w : Node) : JsString :=
  match getValue w "lblWeaponNameValue".toList (some true) (some false) with
  | .str s => s
  | _ => "undefined".toList

/-- The top-level symData object: weapon name → attribute record. -/
abbrev SymData := List (JsString × Record)

/-- Inserting a sequence of weapon blocks into an existing symData
object, in order (`symData[weaponName] = weaponData`). -/
def insertWeapons (sd : SymData) (ws : List Node) : SymData :=
  ws.foldl (fun sd w => setKey sd (weaponKey w) (processWeapon w)) sd

/-- The symData object built from the flattened list of weapon blocks of
the document (the nested class/weapon loops of part_000 lines 21-24,
flattened in order). -/
def buildSymData (ws : List Node) : SymData :=
  insertWeapons [] ws

/-!
Concrete fixtures used by counterexamples and witnesses.
-/

/-- A table cell holding the given text. -/
def tcell (s : String) : Node := .elem "td".toList [] [.text s.toList]

/-- A table row with a leading label cell and two value cells (the
layout the 1-indexed column reads of the source assume). -/
def trow (a b c : String) : Node := .elem "tr".toList [] [tcell a, tcell b, tcell c]

/-- A spread increase/decrease table: header row, then first-shots row
(ads 6, hip 8), increase row (ads 2, hip 4), decrease row. -/
def incDecTable : Node :=
  .elem "table".toList ["spreadIncDecTable".toList]
    [trow "h" "h" "h", trow "First" "6" "8", trow "Inc" "2" "4", trow "Dec" "1" "1"]

/-- A weapon block containing only the spread increase/decrease table. -/
def wFssm : Node := .elem "div".toList [] [incDecTable]

/-- A weapon block with no recognizable sub-elements at all. -/
def emptyWeapon : Node := .elem "div".toList [] []

/-- A shared-class label reading "12 pellets". -/
def pelletLabel : Node :=
  .elem "span".toList ["chartMinMaxLabel".toList] [.text "12 pellets".toList]

/-- A weapon block whose only feature is a shared-class label reading
"12 pellets". -/
def wPellets : Node := .elem "div".toList [] [pelletLabel]

example : getKey (processWeapon wFssm) "adsStandSpreadInc".toList = .num (.val 2) := by decide
example : getKey (processWeapon wFssm) "hipStandSpreadInc".toList = .num (.val 4) := by decide
example : getKey (processWeapon wFssm) "adsStandFirstSpreadMul".toList = .num (.val 3) := by
  decide
example : getKey (processWeapon wFssm) "hipStandFirstSpreadMul".toList = .num (.val 4) := by
  decide
example : hasKey (processWeapon emptyWeapon) "ammoCapacity".toList = false := by decide
example : hasKey (processWeapon emptyWeapon) "adsStandBaseMin".toList = true := by decide
example : getKey (processWeapon emptyWeapon) "adsStandBaseMin".toList = .undef := by decide
example : getKey (processWeapon emptyWeapon) "recoilLeft".toList = .num .nan := by decide
example : hasKey (processWeapon emptyWeapon) "pellets".toList = false := by decide
example : getKey (processWeapon wPellets) "pellets".toList = .num (.val 12) := by decide
example : weaponKey emptyWeapon = "undefined".toList := by decide

/-!
The pretty serializer `prettifySymData` of src/utils.js (lines 39-59).
It is generic in the attribute value type: the implicit `ToString` of
the template literal `${stats[attribute]}` is passed explicitly as
`toStr`.
-/

/-- The attribute lines of one weapon: double indent, quoted attribute
name, the stringified value, and a comma on every line except the last
(`++statsSeen < numStats`). -/
def statLines {α : Type} (toStr : α → JsString) (stats : List (JsString × α)) : JsString :=
  ((stats.enum.map fun p =>
    "    ".toList ++ "\"".toList ++ p.2.1 ++ "\": ".toList ++ toStr p.2.2 ++
      (if p.1 + 1 < stats.length then ",".toList else []) ++ "\n".toList)).flatten

/-- The chunk appended for one weapon: indented quoted weapon name and
opening brace, the attribute lines, and the closing `"  \x7d,\n"`. -/
def weaponChunk {α : Type} (toStr : α → JsString) (wp : JsString × List (JsString × α)) :
    JsString :=
  "  ".toList ++ "\"".toList ++ wp.1 ++ "\": \x7b".toList ++ "\n".toList ++
    statLines toStr wp.2 ++ "  ".toList ++ "\x7d,\n".toList

/-- `prettifySymData`: opening `"\x7b\n"`, one chunk per weapon, then the
unconditional removal of the final two characters of the accumulated
string and the closing `"\n\x7d"`. -/
def prettifySymData {α : Type} (toStr : α → JsString)
    (symData : List (JsString × List (JsString × α))) : JsString :=
  let result := "\x7b\n".toList ++ (symData.map (weaponChunk toStr)).flatten
  result.take (result.length - 2) ++ "\n\x7d".toList

example : prettifySymData (fun s : JsString => s) [] = "\n\x7d".toList := by decide
example :
    prettifySymData (fun s : JsString => s)
      [("g".toList, [("a".toList, "1".toList), ("b".toList, "2".toList)])] =
    "\x7b\n  \"g\": \x7b\n    \"a\": 1,\n    \"b\": 2\n  \x7d\n\x7d".toList := by decide

/-!
Record lemmas: how `setKey`, `hasKey` and `getKey` interact, lifted to
`applyRule` and to folds over rule lists.
-/

theorem hasKey_setKey_self {α : Type} (r : List (JsString × α)) (k : JsString) (v : α) :
    hasKey (setKey r k v) k = true := by
  induction r with
  | nil => simp [setKey, hasKey]
  | cons p r ih =>
    by_cases h : p.1 = k
    · simp [setKey, h, hasKey]
    · simp only [setKey, if_neg h, hasKey, List.any_cons]
      simp only [hasKey] at ih
      simp [ih]

theorem hasKey_setKey_ne {α : Type} (r : List (JsString × α)) {k k' : JsString} (v : α)
    (h : k ≠ k') : hasKey (setKey r k' v) k = hasKey r k := by
  induction r with
  | nil => simp [setKey, hasKey, Ne.symm h]
  | cons p r ih =>
    by_cases hp : p.1 = k'
    · simp [setKey, hp, hasKey, Ne.symm h]
    · simp only [setKey, if_neg hp, hasKey, List.any_cons]
      simp only [hasKey] at ih
      simp [ih]

theorem hasKey_setKey_of {α : Type} (r : List (JsString × α)) {k : JsString} (k' : JsString)
    (v : α) (h : hasKey r k = true) : hasKey (setKey r k' v) k = true := by
  by_cases hk : k = k'
  · subst hk
    exact hasKey_setKey_self r k v
  · rw [hasKey_setKey_ne r v hk]
    exact h

theorem getKeyD_setKey_self {α : Type} (r : List (JsString × α)) (k : JsString) (v d : α) :
    getKeyD (setKey r k v) k d = v := by
  induction r with
  | nil => simp [setKey, getKeyD]
  | cons p r ih =>
    by_cases h : p.1 = k
    · simp [setKey, h, getKeyD]
    · simp [setKey, h, getKeyD, ih]

theorem getKeyD_setKey_ne {α : Type} (r : List (JsString × α)) {k k' : JsString} (v d : α)
    (h : k ≠ k') : getKeyD (setKey r k' v) k d = getKeyD r k d := by
  induction r with
  | nil => simp [setKey, getKeyD, Ne.symm h]
  | cons p r ih =>
    by_cases hp : p.1 = k'
    · simp [setKey, hp, getKeyD, Ne.symm h]
    · simp [setKey, hp, getKeyD, ih]

theorem getKey_setKey_self (r : Record) (k : JsString) (v : JsVal) :
    getKey (setKey r k v) k = v :=
  getKeyD_setKey_self r k v .undef

theorem getKey_setKey_ne (r : Record) {k k' : JsString} (v : JsVal) (h : k ≠ k') :
    getKey (setKey r k' v) k = getKey r k :=
  getKeyD_setKey_ne r v .undef h

/-- A rule only ever writes its own field: any other key's presence is
unchanged. -/
theorem hasKey_applyRule_ne (w : Node) (r : Record) (rule : Rule) {k : JsString}
    (h : k ≠ rule.1) : hasKey (applyRule w r rule) k = hasKey r k := by
  obtain ⟨f, c, b⟩ := rule
  simp only at h
  match b with
  | none =>
    simp only [applyRule]
    cases getValue w c none none <;> simp [hasKey_setKey_ne _ _ h]
  | some .pellets =>
    simp only [applyRule]
    cases (getAll w c).find? (fun l => jsIncludes (textContent l) "pellets".toList) <;>
      simp [hasKey_setKey_ne _ _ h]
  | some .recoilLeft => simp [applyRule, hasKey_setKey_ne _ _ h]
  | some .recoilRight => simp [applyRule, hasKey_setKey_ne _ _ h]
  | some .recoilFirstShot => simp [applyRule, hasKey_setKey_ne _ _ h]
  | some (.spread row col dyn) => simp [applyRule, getSpread, hasKey_setKey_ne _ _ h]
  | some (.fssm row col) =>
    simp [applyRule, getFssm, getSpread, hasKey_setKey_ne _ _ h]

/-- A rule only ever writes its own field: any other key's value is
unchanged. -/
theorem getKey_applyRule_ne (w : Node) (r : Record) (rule : Rule) {k : JsString}
    (h : k ≠ rule.1) : getKey (applyRule w r rule) k = getKey r k := by
  obtain ⟨f, c, b⟩ := rule
  simp only at h
  match b with
  | none =>
    simp only [applyRule]
    cases getValue w c none none <;> simp [getKey_setKey_ne _ _ h]
  | some .pellets =>
    simp only [applyRule]
    cases (getAll w c).find? (fun l => jsIncludes (textContent l) "pellets".toList) <;>
      simp [getKey_setKey_ne _ _ h]
  | some .recoilLeft => simp [applyRule, getKey_setKey_ne _ _ h]
  | some .recoilRight => simp [applyRule, getKey_setKey_ne _ _ h]
  | some .recoilFirstShot => simp [applyRule, getKey_setKey_ne _ _ h]
  | some (.spread row col dyn) => simp [applyRule, getSpread, getKey_setKey_ne _ _ h]
  | some (.fssm row col) =>
    simp [applyRule, getFssm, getSpread, getKey_setKey_ne _ _ h]

/-- A rule never removes a key. -/
theorem hasKey_applyRule_of (w : Node) (r : Record) (rule : Rule) {k : JsString}
    (h : hasKey r k = true) : hasKey (applyRule w r rule) k = true := by
  obtain ⟨f, c, b⟩ := rule
  match b with
  | none =>
    simp only [applyRule]
    cases getValue w c none none <;> simp [hasKey_setKey_of _ _ _ h, h]
  | some .pellets =>
    simp only [applyRule]
    cases (getAll w c).find? (fun l => jsIncludes (textContent l) "pellets".toList) <;>
      simp [hasKey_setKey_of _ _ _ h, h]
  | some .recoilLeft => simp [applyRule, hasKey_setKey_of _ _ _ h]
  | some .recoilRight => simp [applyRule, hasKey_setKey_of _ _ _ h]
  | some .recoilFirstShot => simp [applyRule, hasKey_setKey_of _ _ _ h]
  | some (.spread row col dyn) => simp [applyRule, getSpread, hasKey_setKey_of _ _ _ h]
  | some (.fssm row col) =>
    simp [applyRule, getFssm, getSpread, hasKey_setKey_of _ _ _ h, hasKey_setKey_of]

/-- Folding rules that do not mention a key leaves its presence
unchanged. -/
theorem hasKey_foldl_ne (w : Node) (rules : List Rule) (r : Record) (k : JsString)
    (h : ∀ x ∈ rules, x.1 ≠ k) :
    hasKey (rules.foldl (applyRule w) r) k = hasKey r k := by
  induction rules generalizing r with
  | nil => rfl
  | cons rule rules ih =>
    rw [List.foldl_cons, ih _ fun x hx => h x (List.mem_cons_of_mem rule hx),
      hasKey_applyRule_ne w r rule (Ne.symm (h rule (List.mem_cons_self rule rules)))]

/-- Folding rules that do not mention a key leaves its value
unchanged. -/
theorem getKey_foldl_ne (w : Node) (rules : List Rule) (r : Record) (k : JsString)
    (h : ∀ x ∈ rules, x.1 ≠ k) :
    getKey (rules.foldl (applyRule w) r) k = getKey r k := by
  induction rules generalizing r with
  | nil => rfl
  | cons rule rules ih =>
    rw [List.foldl_cons, ih _ fun x hx => h x (List.mem_cons_of_mem rule hx),
      getKey_applyRule_ne w r rule (Ne.symm (h rule (List.mem_cons_self rule rules)))]

/-- Folding rules never removes a key. -/
theorem hasKey_foldl_of (w : Node) (rules : List Rule) (r : Record) (k : JsString)
    (h : hasKey r k = true) :
    hasKey (rules.foldl (applyRule w) r) k = true := by
  induction rules generalizing r with
  | nil => exact h
  | cons rule rules ih =>
    rw [List.foldl_cons]
    exact ih _ (hasKey_applyRule_of w r rule h)

/-- The 32 field names of the rule list are pairwise distinct. -/
theorem ruleFields_nodup : (ruleList.map fun x => x.1).Nodup := by decide

/-- Splitting the rule list at one rule: no other rule shares its field
name. -/
theorem rule_split_fields (pre post : List Rule) (rule : Rule)
    (h : ruleList = pre ++ rule :: post) :
    (∀ x ∈ pre, x.1 ≠ rule.1) ∧ (∀ x ∈ post, x.1 ≠ rule.1) := by
  have hn := ruleFields_nodup
  rw [h, List.map_append, List.map_cons, List.nodup_append] at hn
  obtain ⟨hpre, hcons, hdisj⟩ := hn
  constructor
  · intro x hx
    exact fun he => (hdisj (List.mem_map_of_mem _ hx)) (by rw [← he]; exact List.mem_cons_self _ _)
  · intro x hx
    rw [List.nodup_cons] at hcons
    exact fun he => hcons.1 (he ▸ List.mem_map_of_mem _ hx)

/-!
Claim theorems.
-/

/-- C4: in the spread-table lookup with the column-adjustment flag
enabled, the effective column equals the requested column when the
1-indexed row satisfies `row % 3 == 1` and the requested column minus
one for every other row; in particular row 1 / target column 2 reads
column 2 and row 2 / target column 2 reads column 1. -/
theorem spread_effective_col (row col : Nat) :
    (row % 3 = 1 → effectiveCol true row col = col) ∧
    (row % 3 ≠ 1 → effectiveCol true row col = col - 1) ∧
    effectiveCol true 1 2 = 2 ∧ effectiveCol true 2 2 = 1 := by
  refine ⟨?_, ?_, by decide, by decide⟩
  · intro h
    simp [effectiveCol, h]
  · intro h
    simp [effectiveCol, h]

/-- Witness for C4 at row 1 and row 2 with target column 2. -/
theorem spread_effective_col_witness :
    effectiveCol true 1 2 = 2 ∧ effectiveCol true 2 2 = 1 :=
  ⟨(spread_effective_col 1 2).1 (by decide), (spread_effective_col 2 2).2.1 (by decide)⟩

/-- A split never yields the empty list of pieces. -/
theorem jsSplit_ne_nil (sep : Char) (s : JsString) : jsSplit sep s ≠ [] := by
  cases s with
  | nil => simp [jsSplit]
  | cons c cs =>
    simp only [jsSplit]
    cases jsSplit sep cs with
    | nil => simp
    | cons t ts =>
      by_cases h : c = sep <;> simp [h]

/-- Splitting at a leading separator prepends an empty piece. -/
theorem jsSplit_cons_sep (sep : Char) (cs : JsString) :
    jsSplit sep (sep :: cs) = [] :: jsSplit sep cs := by
  simp only [jsSplit]
  cases hsp : jsSplit sep cs with
  | nil => exact absurd hsp (jsSplit_ne_nil sep cs)
  | cons t ts => simp

/-- Every piece of a split of an all-space string is empty. -/
theorem jsSplit_allspace (s : JsString) (h : ∀ c ∈ s, c = ' ') :
    ∀ t ∈ jsSplit ' ' s, t = [] := by
  induction s with
  | nil =>
    intro t ht
    simp [jsSplit] at ht
    exact ht
  | cons c cs ih =>
    intro t ht
    have hc : c = ' ' := h c (List.mem_cons_self _ _)
    subst hc
    rw [jsSplit_cons_sep] at ht
    rcases List.mem_cons.mp ht with h1 | h2
    · exact h1
    · exact ih (fun c' hc' => h c' (List.mem_cons_of_mem _ hc')) t h2

/-- On an all-space string the token search falls back to the original
string. -/
theorem firstNonemptyToken_allspace (s : JsString) (h : ∀ c ∈ s, c = ' ') :
    firstNonemptyToken s = s := by
  have hn : (jsSplit ' ' s).find? (fun t => t.length ≠ 0) = none := by
    rw [List.find?_eq_none]
    intro x hx
    simp [jsSplit_allspace s h x hx]
  unfold firstNonemptyToken
  rw [hn]

/-- C5, amended: on an input consisting only of spaces (hence with no
nonempty space-delimited token), `prune` with `keepSpaces = false` takes
the fallback branch and — provided numeric coercion is also switched
off with `asNumber = false` — returns the original string unchanged.
(With `asNumber` left at its default the fallback string is then coerced
with `Number`, see the counterexample.) -/
theorem prune_allspace (s : JsString) (h : ∀ c ∈ s, c = ' ') :
    prune (some s) (some false) (some false) = .str s := by
  have h1 : firstNonemptyToken s = s := firstNonemptyToken_allspace s h
  simp [prune, truthy, h1, List.filter_eq_self]
  intro a ha
  rw [h a ha]
  decide

/-- Counterexample to C5 as stated: on the all-space input " " with
`keepSpaces = false` and the other option left at its default, `prune`
returns the number 0, not the original string. -/
theorem prune_allspace_cex :
    prune (some " ".toList) (some false) none = .num (.val 0) ∧
    prune (some " ".toList) (some false) none ≠ .str " ".toList :=
  ⟨by decide, by decide⟩

/-- Witness for C5 (amended) at the two-space input. -/
theorem prune_allspace_witness :
    prune (some "  ".toList) (some false) (some false) = .str "  ".toList :=
  prune_allspace "  ".toList (by decide)

/-- C6, amended: on an input with at least one nonempty space-delimited
token, `prune` with `keepSpaces = false` selects the first such token
and — provided numeric coercion is switched off with `asNumber = false`
— returns that token after degree-glyph stripping.  (With `asNumber`
left at its default the token is then coerced with `Number`, see the
counterexample.) -/
theorem prune_first_token (s tok : JsString)
    (h : (jsSplit ' ' s).find? (fun t => t.length ≠ 0) = some tok) :
    prune (some s) (some false) (some false) = .str (tok.filter fun c => decide (c ≠ '°')) := by
  have h1 : firstNonemptyToken s = tok := by
    unfold firstNonemptyToken
    rw [h]
  simp [prune, truthy, h1]

/-- Counterexample to C6 as stated: on "a b" with `keepSpaces = false`
and default numeric coercion, `prune` returns NaN, not the first token
"a". -/
theorem prune_first_token_cex :
    prune (some "a b".toList) (some false) none = .num .nan ∧
    prune (some "a b".toList) (some false) none ≠ .str "a".toList :=
  ⟨by decide, by decide⟩

/-- Witness for C6 (amended) at the input "7° mil" whose first nonempty
token is "7°". -/
theorem prune_first_token_witness :
    (jsSplit ' ' "7° mil".toList).find? (fun t => t.length ≠ 0) = some "7°".toList ∧
    prune (some "7° mil".toList) (some false) (some false) =
      .str ("7°".toList.filter fun c => decide (c ≠ '°')) :=
  ⟨by decide, prune_first_token "7° mil".toList "7°".toList (by decide)⟩

/-- C3: in the first-spread-multiplier derivation for
`adsStandFirstSpreadMul`, a stored `adsStandSpreadInc` that reads as the
number 0 makes the rule store the number 0 (not NaN, not an error);
when the divisor reads as a nonzero number `q` and the row-1/column-1
cell reads as a number `p`, the rule stores the quotient `p / q` rounded
to zero decimal places (ties away from zero), as a number. -/
theorem getFssm_zero_guard (w : Node) (r : Record) :
    (jsToNumber (getKey r "adsStandSpreadInc".toList) = .val 0 →
      getKey
        (getFssm w 1 1 r "adsStandFirstSpreadMul".toList "spreadIncDecTable".toList)
        "adsStandFirstSpreadMul".toList = .num (.val 0)) ∧
    (∀ q p : ℚ, q ≠ 0 →
      jsToNumber (getKey r "adsStandSpreadInc".toList) = .val q →
      jsToNumber (spreadCell w 1 1 true "spreadIncDecTable".toList) = .val p →
      getKey
        (getFssm w 1 1 r "adsStandFirstSpreadMul".toList "spreadIncDecTable".toList)
        "adsStandFirstSpreadMul".toList = .num (.val ((roundHalfAway (p / q) : ℤ) : ℚ))) := by
  have hne : ("adsStandSpreadInc".toList : JsString) ≠ "adsStandFirstSpreadMul".toList := by
    decide
  constructor
  · intro h0
    simp only [getFssm, getSpread, getKey_setKey_self, getKey_setKey_ne _ _ hne, h0]
    simp [jsEqZero]
  · intro q p hq h0 hp
    simp only [getFssm, getSpread, getKey_setKey_self, getKey_setKey_ne _ _ hne, h0, hp]
    simp [jsEqZero, hq, jsDiv, jsToFixed0, ratDiv_eq]

/-- Witness for C3: a zero divisor stores the number 0, and divisor 2
with first-shots cell 6 stores round(6/2). -/
theorem getFssm_zero_guard_witness :
    getKey
      (getFssm emptyWeapon 1 1 [("adsStandSpreadInc".toList, JsVal.num (.val 0))]
        "adsStandFirstSpreadMul".toList "spreadIncDecTable".toList)
      "adsStandFirstSpreadMul".toList = .num (.val 0) ∧
    getKey
      (getFssm wFssm 1 1 [("adsStandSpreadInc".toList, JsVal.num (.val 2))]
        "adsStandFirstSpreadMul".toList "spreadIncDecTable".toList)
      "adsStandFirstSpreadMul".toList = .num (.val ((roundHalfAway ((6 : ℚ) / 2) : ℤ) : ℚ)) :=
  ⟨(getFssm_zero_guard emptyWeapon _).1 (by decide),
    (getFssm_zero_guard wFssm _).2 2 6 (by decide) (by decide) (by decide)⟩

/-- C1 (code bug): for the weapon `wFssm` whose spread inc/dec table
reads ads-increase 2, hip-increase 4 and hip first-shots 8, the code
stores `hipStandFirstSpreadMul = 8 / 2 = 4`, dividing by
`adsStandSpreadInc` (which `getFssm` reads for both derived fields),
whereas dividing the same cell by the sibling `hipStandSpreadInc` —
what the claim, the spec and the older pipeline variant
(src/unnamed/part_001 lines 190-202) prescribe — gives `8 / 4 = 2`. -/
theorem hipFssm_divides_by_ads :
    getKey (processWeapon wFssm) "hipStandFirstSpreadMul".toList = .num (.val 4) ∧
    getKey (processWeapon wFssm) "adsStandSpreadInc".toList = .num (.val 2) ∧
    getKey (processWeapon wFssm) "hipStandSpreadInc".toList = .num (.val 4) ∧
    spreadCell wFssm 1 2 true "spreadIncDecTable".toList = .num (.val 8) ∧
    jsToFixed0
      (jsDiv (.val 8) (jsToNumber (getKey (processWeapon wFssm) "hipStandSpreadInc".toList))) =
      .val 2 ∧
    getKey (processWeapon wFssm) "hipStandFirstSpreadMul".toList ≠ .num (.val 2) :=
  ⟨by decide, by decide, by decide, by decide, by decide, by decide⟩

/-- C2, amended: a simple rule (one with no custom extractor) whose
locator finds no element leaves its field's key out of the record
entirely; but every custom rule except the pellets rule assigns its
field's key unconditionally (storing `undefined` or NaN when its target
is absent). -/
theorem processWeapon_key_presence (w : Node) (f c : JsString) :
    ((f, c, (none : Option CustomB)) ∈ ruleList → querySelector w c = none →
      hasKey (processWeapon w) f = false) ∧
    (∀ b : CustomB, (f, c, some b) ∈ ruleList → b ≠ .pellets →
      hasKey (processWeapon w) f = true) := by
  constructor
  · intro hmem hqs
    obtain ⟨pre, post, hsplit⟩ := List.append_of_mem hmem
    obtain ⟨hpre, hpost⟩ := rule_split_fields pre post _ hsplit
    unfold processWeapon
    rw [hsplit, List.foldl_append, List.foldl_cons, hasKey_foldl_ne w post _ f hpost]
    have hstep : applyRule w (pre.foldl (applyRule w) []) (f, c, none) =
        pre.foldl (applyRule w) [] := by
      simp [applyRule, getValue, hqs, prune]
    rw [hstep, hasKey_foldl_ne w pre _ f hpre]
    rfl
  · intro b hmem hb
    obtain ⟨pre, post, hsplit⟩ := List.append_of_mem hmem
    unfold processWeapon
    rw [hsplit, List.foldl_append, List.foldl_cons]
    apply hasKey_foldl_of
    cases b with
    | pellets => exact absurd rfl hb
    | recoilLeft => simp [applyRule, hasKey_setKey_self]
    | recoilRight => simp [applyRule, hasKey_setKey_self]
    | recoilFirstShot => simp [applyRule, hasKey_setKey_self]
    | spread row col dyn => simp [applyRule, getSpread, hasKey_setKey_self]
    | fssm row col => simp [applyRule, getFssm, getSpread, hasKey_setKey_self]

/-- Counterexample to C2 as stated: the weapon with no sub-elements has
no spread table, yet its record contains the key `adsStandBaseMin`,
stored as `undefined` (and `recoilLeft`, stored as NaN) — the key is
not omitted. -/
theorem processWeapon_key_presence_cex :
    querySelector emptyWeapon "spreadTable".toList = none ∧
    hasKey (processWeapon emptyWeapon) "adsStandBaseMin".toList = true ∧
    getKey (processWeapon emptyWeapon) "adsStandBaseMin".toList = .undef ∧
    getKey (processWeapon emptyWeapon) "recoilLeft".toList = .num .nan :=
  ⟨rfl, by decide, by decide, by decide⟩

/-- Witness for C2 (amended): on the empty weapon the simple
`ammoCapacity` rule omits its key while the custom
`adsStandFirstSpreadMul` rule assigns its key. -/
theorem processWeapon_key_presence_witness :
    hasKey (processWeapon emptyWeapon) "ammoCapacity".toList = false ∧
    hasKey (processWeapon emptyWeapon) "adsStandFirstSpreadMul".toList = true :=
  ⟨(processWeapon_key_presence emptyWeapon "ammoCapacity".toList "lblMag".toList).1
      (by decide) rfl,
    (processWeapon_key_presence emptyWeapon "adsStandFirstSpreadMul".toList
      "spreadIncDecTable".toList).2 (.fssm 1 1) (by decide) (by decide)⟩

/-- C7, amended: the pellets field is set from the first shared-class
label whose raw text contains the substring "pellets", and when no such
label exists the key is omitted; but the stored value is `prune` of the
label's text with default options, which collapses it to the first
nonempty space-token and coerces it with `Number` — a numeric value,
not the normalized text. -/
theorem pellets_rule (w : Node) :
    (∀ l : Node,
      (getAll w "chartMinMaxLabel".toList).find?
          (fun x => jsIncludes (textContent x) "pellets".toList) = some l →
      getKey (processWeapon w) "pellets".toList =
        .num (jsNumberOfString
          ((firstNonemptyToken (textContent l)).filter fun c => decide (c ≠ '°')))) ∧
    ((getAll w "chartMinMaxLabel".toList).find?
        (fun x => jsIncludes (textContent x) "pellets".toList) = none →
      hasKey (processWeapon w) "pellets".toList = false) := by
  have hmem : (("pellets".toList, "chartMinMaxLabel".toList, some CustomB.pellets) : Rule) ∈
      ruleList := by decide
  obtain ⟨pre, post, hsplit⟩ := List.append_of_mem hmem
  obtain ⟨hpre, hpost⟩ := rule_split_fields pre post _ hsplit
  constructor
  · intro l hf
    unfold processWeapon
    rw [hsplit, List.foldl_append, List.foldl_cons, getKey_foldl_ne w post _ _ hpost]
    simp only [applyRule, hf]
    rw [getKey_setKey_self]
    simp [prune, truthy]
  · intro hf
    unfold processWeapon
    rw [hsplit, List.foldl_append, List.foldl_cons, hasKey_foldl_ne w post _ _ hpost]
    simp only [applyRule, hf]
    rw [hasKey_foldl_ne w pre _ _ hpre]
    rfl

/-- Counterexample to C7 as stated: for the weapon whose matching label
reads "12 pellets", the stored value is the number 12 — neither the
normalized text of the label nor any string at all. -/
theorem pellets_rule_cex :
    getKey (processWeapon wPellets) "pellets".toList = .num (.val 12) ∧
    getKey (processWeapon wPellets) "pellets".toList ≠ .str "12 pellets".toList ∧
    getKey (processWeapon wPellets) "pellets".toList ≠ .str "12".toList :=
  ⟨by decide, by decide, by decide⟩

/-- Witness for C7 (amended): the "12 pellets" label is found and its
pruned value stored; the empty weapon omits the key. -/
theorem pellets_rule_witness :
    getKey (processWeapon wPellets) "pellets".toList =
      .num (jsNumberOfString
        ((firstNonemptyToken (textContent pelletLabel)).filter fun c => decide (c ≠ '°'))) ∧
    hasKey (processWeapon emptyWeapon) "pellets".toList = false :=
  ⟨(pellets_rule wPellets).1 pelletLabel rfl, (pellets_rule emptyWeapon).2 rfl⟩

/-- Auxiliary for C8: inserting weapons never removes a symData key. -/
theorem hasKey_insertWeapons_of (sd : SymData) (ws : List Node) (k : JsString)
    (h : hasKey sd k = true) : hasKey (insertWeapons sd ws) k = true := by
  induction ws generalizing sd with
  | nil => exact h
  | cons x xs ih =>
    simp only [insertWeapons, List.foldl_cons]
    exact ih _ (hasKey_setKey_of _ _ _ h)

/-- Auxiliary for C8: a processed weapon's key is present in the built
symData. -/
theorem hasKey_insertWeapons_mem (ws : List Node) (w : Node) (h : w ∈ ws) (sd : SymData) :
    hasKey (insertWeapons sd ws) (weaponKey w) = true := by
  induction ws generalizing sd with
  | nil => cases h
  | cons x xs ih =>
    simp only [insertWeapons, List.foldl_cons]
    rcases List.mem_cons.mp h with h1 | h2
    · subst h1
      exact hasKey_insertWeapons_of _ _ _ (hasKey_setKey_self _ _ _)
    · exact ih h2 _

/-- C8: every processed weapon block is inserted into symData under
exactly the weapon-name string extracted from it (spaces preserved, no
numeric coercion, as `prune` is called with `keepSpaces = true` and
`asNumber = false`); and when the name element is missing, extraction
yields `undefined` and the entry is still created, keyed under the
string "undefined". -/
theorem symData_weapon_key (w : Node) (ws : List Node) :
    buildSymData [w] = [(weaponKey w, processWeapon w)] ∧
    (w ∈ ws → hasKey (buildSymData ws) (weaponKey w) = true) ∧
    (∀ s : JsString,
      getValue w "lblWeaponNameValue".toList (some true) (some false) = .str s →
      weaponKey w = s) ∧
    (querySelector w "lblWeaponNameValue".toList = none →
      weaponKey w = "undefined".toList) := by
  refine ⟨rfl, fun h => hasKey_insertWeapons_mem ws w h [], ?_, ?_⟩
  · intro s hs
    rw [weaponKey, hs]
  · intro h
    rw [weaponKey, getValue, h]
    simp [prune]

/-- Witness for C8: a singleton document whose only weapon has no name
element gets an entry under the key "undefined". -/
theorem symData_weapon_key_witness :
    hasKey (buildSymData [emptyWeapon]) (weaponKey emptyWeapon) = true ∧
    weaponKey emptyWeapon = "undefined".toList :=
  ⟨(symData_weapon_key emptyWeapon [emptyWeapon]).2.1 (List.mem_singleton.mpr rfl),
    (symData_weapon_key emptyWeapon []).2.2.2 rfl⟩

/-- Dropping the last two characters of a string that ends in a known
two-character tail. -/
theorem take_concat_two (l : List Char) (a b : Char) :
    (l ++ [a, b]).take ((l ++ [a, b]).length - 2) = l := by
  have h : (l ++ [a, b]).length - 2 = l.length := by simp
  rw [h]
  exact List.take_left l [a, b]

/-- C9: on a symData with two weapons of two attributes each, the
pretty serializer emits a comma after the first attribute line of each
weapon (the `",\n"` after the first value), no comma after the final
attribute line of each weapon (the bare `"\n"` after the second value),
and no trailing comma after the final weapon's closing brace (the
output ends `"  \x7d\n\x7d"`). -/
theorem prettify_two_weapons {α : Type} (toStr : α → JsString)
    (w1 a1 a2 w2 b1 b2 : JsString) (v1 v2 u1 u2 : α) :
    prettifySymData toStr [(w1, [(a1, v1), (a2, v2)]), (w2, [(b1, u1), (b2, u2)])] =
      "\x7b\n".toList ++
      "  \"".toList ++ w1 ++ "\": \x7b\n".toList ++
      "    \"".toList ++ a1 ++ "\": ".toList ++ toStr v1 ++ ",\n".toList ++
      "    \"".toList ++ a2 ++ "\": ".toList ++ toStr v2 ++ "\n".toList ++
      "  \x7d,\n".toList ++
      "  \"".toList ++ w2 ++ "\": \x7b\n".toList ++
      "    \"".toList ++ b1 ++ "\": ".toList ++ toStr u1 ++ ",\n".toList ++
      "    \"".toList ++ b2 ++ "\": ".toList ++ toStr u2 ++ "\n".toList ++
      "  \x7d\n\x7d".toList := by
  have hres : ("\x7b\n".toList ++
      (([(w1, [(a1, v1), (a2, v2)]), (w2, [(b1, u1), (b2, u2)])].map
        (weaponChunk toStr)).flatten : List Char)) =
      ("\x7b\n".toList ++
        "  \"".toList ++ w1 ++ "\": \x7b\n".toList ++
        "    \"".toList ++ a1 ++ "\": ".toList ++ toStr v1 ++ ",\n".toList ++
        "    \"".toList ++ a2 ++ "\": ".toList ++ toStr v2 ++ "\n".toList ++
        "  \x7d,\n".toList ++
        "  \"".toList ++ w2 ++ "\": \x7b\n".toList ++
        "    \"".toList ++ b1 ++ "\": ".toList ++ toStr u1 ++ ",\n".toList ++
        "    \"".toList ++ b2 ++ "\": ".toList ++ toStr u2 ++ "\n".toList ++
        "  \x7d".toList) ++ [',', '\n'] := by
    simp [weaponChunk, statLines, List.enum, List.enumFrom, List.append_assoc]
  simp only [prettifySymData]
  rw [hres, take_concat_two]
  simp [List.append_assoc]

/-- C10: on the empty symData the unconditional removal of the final
two characters deletes the opening brace and newline, so the output is
exactly the two-character string `"\n\x7d"` — not `"\x7b\x7d"`, not a JSON
object; on every non-empty symData the output starts with `'{'` and
ends with `'}'`. -/
theorem prettify_empty_and_nonempty {α : Type} (toStr : α → JsString) :
    prettifySymData toStr [] = "\n\x7d".toList ∧
    prettifySymData toStr [] ≠ "\x7b\x7d".toList ∧
    (∀ sd : List (JsString × List (JsString × α)), sd ≠ [] →
      (prettifySymData toStr sd).head? = some '{' ∧
      (prettifySymData toStr sd).getLast? = some '}') := by
  refine ⟨rfl, ?_, ?_⟩
  · intro h
    have h2 : ("\n\x7d".toList : List Char) = "\x7b\x7d".toList :=
      ((rfl : prettifySymData toStr [] = "\n\x7d".toList).symm).trans h
    exact absurd h2 (by decide)
  intro sd hsd
  cases sd with
  | nil => exact absurd rfl hsd
  | cons p rest =>
    have hbody : ∃ t : List Char,
        ("\x7b\n".toList ++ ((p :: rest).map (weaponChunk toStr)).flatten : List Char) =
          '{' :: '\n' :: ' ' :: t :=
      ⟨_, rfl⟩
    obtain ⟨t, ht⟩ := hbody
    constructor
    · simp only [prettifySymData]
      rw [ht]
      have h1 : (('{' :: '\n' :: ' ' :: t).take (('{' :: '\n' :: ' ' :: t).length - 2)).head? =
          some '{' := by
        have hl : ('{' :: '\n' :: ' ' :: t).length - 2 = t.length + 1 := by simp
        rw [hl, List.take_succ_cons]
        rfl
      rw [List.head?_append, h1]
      rfl
    · simp only [prettifySymData]
      rw [List.getLast?_append]
      rfl

/-- Witness for C10 on a one-weapon symData. -/
theorem prettify_empty_and_nonempty_witness :
    (prettifySymData (fun s : JsString => s)
      [("g".toList, [("a".toList, "1".toList)])]).head? = some '{' ∧
    (prettifySymData (fun s : JsString => s)
      [("g".toList, [("a".toList, "1".toList)])]).getLast? = some '}' :=
  (prettify_empty_and_nonempty (fun s : JsString => s)).2.2 _ (List.cons_ne_nil _ _)
